import Mathlib

set_option maxRecDepth 10000

/-!
Verification of the E2EE frame crypto transform (modules/e2ee/E2EEcontext).

The definitions below are a shallow embedding of the JavaScript source.
Byte buffers are lists of naturals, JavaScript numbers are `Nat`/`Int`
(JavaScript `%` on a possibly negative left operand is `Int.tmod`), the
per-ssrc send-count `Map` is a function `Nat -> Option Nat`, and the
asynchronous transform callbacks become pure functions from a context
state and a chunk to an outcome record (what was enqueued, the updated
state, whether `logger.error` ran, and whether an uncaught exception
escaped).  `Math.random` seeding is made explicit through a `rand`
argument.  The external `crypto.subtle` AES-GCM primitive is modelled at
its interface as an ideal AEAD (see `aeadEncrypt` below).
-/

/-- Frame types of the VP8 payload: key frames and delta (non-key) frames. -/
inductive FrameType where
  | key : FrameType
  | delta : FrameType
  deriving DecidableEq, Repr

/-- The `unencryptedBytes` table from the source: key frames keep 10 clear
leading bytes, delta frames keep 3. -/
def unencryptedBytes : FrameType → Nat
  | FrameType.key => 10
  | FrameType.delta => 3

/-- `keyRingSize` from the source: the ring holds 8 key slots. -/
def keyRingSize : Nat := 8

/-- `ivLength` from the source: a 96 bit (12 byte) IV for AES-GCM. -/
def ivLength : Nat := 12

/-- An `RTCEncodedVideoFrame` as the transforms use it: payload bytes, the
codec frame type, the synchronization source and the RTP timestamp. -/
structure Chunk where
  data : List Nat
  type : FrameType
  synchronizationSource : Nat
  timestamp : Nat
  deriving DecidableEq, Repr

/-- The mutable fields of an `E2EEcontext` instance: the salt from the
constructor options, the key ring (`new Array(keyRingSize)`, holes are
`none`), the current key index (starts at `-1`) and the per-ssrc send
counts map. -/
structure E2EEState where
  salt : Nat
  cryptoKeyRing : List (Option Nat)
  currentKeyIndex : Int
  sendCounts : Nat → Option Nat

/-- The constructor of `E2EEcontext`: empty ring of 8 slots, index `-1`,
empty send-counts map. -/
def initialState (salt : Nat) : E2EEState :=
  { salt := salt
    cryptoKeyRing := List.replicate keyRingSize none
    currentKeyIndex := -1
    sendCounts := fun _ => none }

/-- Big-endian byte expansion of a natural number into `n` bytes, the way a
`DataView` lays out an unsigned integer. -/
def natToBytesBE : Nat → Nat → List Nat
  | 0, _ => []
  | n + 1, v => (v / 256 ^ n) % 256 :: natToBytesBE n v

/-- Big-endian recomposition of a byte list. -/
def bytesToNatBE (l : List Nat) : Nat :=
  l.foldl (fun a b => a * 256 + b) 0

/-- `DataView.setUint32` semantics: coerce to Uint32 and write 4 big-endian
bytes. -/
def be32 (v : Nat) : List Nat := natToBytesBE 4 (v % 2 ^ 32)

/-- Mixing fold used by the ideal-AEAD tag below. -/
def listMix (l : List Nat) : Nat :=
  l.foldl (fun a b => a * 257 + b + 1) 0

/-- Range of the ideal-AEAD tag (an AES-GCM tag is 128 bits). -/
def TWO128 : Nat := 2 ^ 128

/-- Ideal model of the 128-bit authentication tag the external AES-GCM
primitive appends: a value determined by key, IV and plaintext. -/
def aeadTag (key : Nat) (iv pt : List Nat) : Nat :=
  (key + 31 * listMix iv + 37 * listMix pt) % TWO128

/-- Interface model of `crypto.subtle.encrypt` with AES-GCM: the ciphertext
carries the plaintext plus the 16-byte authentication tag, so its length is
the plaintext length plus 16, exactly as the web primitive guarantees. -/
def aeadEncrypt (key : Nat) (iv pt : List Nat) : List Nat :=
  pt ++ natToBytesBE 16 (aeadTag key iv pt)

/-- Interface model of `crypto.subtle.decrypt` with AES-GCM: recompute the
tag over the carried plaintext and fail closed when it does not verify. -/
def aeadDecrypt (key : Nat) (iv ct : List Nat) : Option (List Nat) :=
  if ct.length < 16 then none
  else if natToBytesBE 16 (aeadTag key iv (ct.take (ct.length - 16))) =
      ct.drop (ct.length - 16) then some (ct.take (ct.length - 16))
  else none

/-- JavaScript array indexing with a possibly negative index: out of range
and holes both read as `undefined` (`none`). -/
def ringGetI (ring : List (Option Nat)) (i : Int) : Option Nat :=
  if i < 0 then none else ring.getD i.toNat none

/-- The encoder's key lookup, line for line:
`this._cryptoKeyRing[this._currentKeyIndex % this._cryptoKeyRing.length]`,
with JavaScript `%` (sign of the dividend, hence `Int.tmod`). -/
def activeKeyLookup (st : E2EEState) : Option Nat :=
  ringGetI st.cryptoKeyRing
    (Int.tmod st.currentKeyIndex (st.cryptoKeyRing.length : Int))

/-- The decoder's key lookup: `data[data.byteLength - 1]` indexes the ring;
an empty payload reads `undefined` and resolves no key. -/
def resolveKeyAt (st : E2EEState) (data : List Nat) : Option Nat :=
  data.getLast?.bind fun kb => st.cryptoKeyRing.getD kb none

/-- The decoder's frame-type inference from the first payload byte:
`(data[0] & 0x1) === 0 ? 'key' : 'delta'`. -/
def inferredFrameType (data : List Nat) : FrameType :=
  if data.headD 0 % 2 = 0 then FrameType.key else FrameType.delta

/-- `Map.set` on the send-counts map. -/
def updateCounts (m : Nat → Option Nat) (k v : Nat) : Nat → Option Nat :=
  fun s => if s = k then some v else m s

/-- Result of running `_encodeFunction` on one chunk: what was enqueued (at
most one frame), the context state afterwards, whether `logger.error` was
called, and whether an uncaught exception (a `RangeError` from a typed-array
view with an out-of-range offset or negative length) escaped. -/
structure EncodeOutcome where
  enqueued : Option Chunk
  state : E2EEState
  logged : Bool
  threw : Bool

/-- Result of running `_decodeFunction` on one chunk.  The decoder never
writes the context state, so only the enqueued frame, the logging flag and
the uncaught-exception flag remain. -/
structure DecodeOutcome where
  enqueued : Option Chunk
  logged : Bool
  threw : Bool
  deriving DecidableEq, Repr

/-- `_encodeFunction` from the source.  With a key at the active slot it
seeds the send count on first use (`rand` stands for the
`Math.floor(Math.random() * 0xFFFF)` draw), builds the 12-byte IV from
ssrc, timestamp and `sendCount % 0xFFFF`, increments the stored count,
encrypts everything past the unencrypted prefix, and assembles
`prefix ++ cipherText ++ iv ++ [0]`.  The final byte stays 0 because line
140 of the source indexes `newUint8` with
`unencryptedBytes + cipherText.byteLength + ivLength`, string-concatenating
the prefix-table object into a non-numeric property name, so the key-index
byte of the zero-initialised buffer is never written.  When the payload is
shorter than the prefix, `new Uint8Array(chunk.data, prefixLength)` throws a
`RangeError` after the count was already incremented.  With no key it logs
and enqueues nothing. -/
def encodeFunction (st : E2EEState) (rand : Nat) (chunk : Chunk) :
    EncodeOutcome :=
  match activeKeyLookup st with
  | none => { enqueued := none, state := st, logged := true, threw := false }
  | some key =>
    let ssrc := chunk.synchronizationSource
    let counts1 := match st.sendCounts ssrc with
      | none => updateCounts st.sendCounts ssrc rand
      | some _ => st.sendCounts
    let sendCount := (counts1 ssrc).getD 0
    let iv := be32 ssrc ++ be32 chunk.timestamp ++ be32 (sendCount % 65535)
    let st' := { st with sendCounts := updateCounts counts1 ssrc (sendCount + 1) }
    if unencryptedBytes chunk.type ≤ chunk.data.length then
      let cipherText :=
        aeadEncrypt key iv (chunk.data.drop (unencryptedBytes chunk.type))
      let newData :=
        chunk.data.take (unencryptedBytes chunk.type) ++ cipherText ++ iv ++ [0]
      { enqueued := some { chunk with data := newData }, state := st',
        logged := false, threw := false }
    else
      { enqueued := none, state := st', logged := false, threw := true }

/-- `_decodeFunction` from the source.  It reads the key index from the last
payload byte; with no key at that slot the chunk passes through unmodified.
With a key it infers the frame type from the first byte, slices IV and
ciphertext out of the payload (the typed-array views throw a `RangeError`
when the payload is shorter than prefix + 13 — the source has no length
guard), decrypts, and on success rebuilds the frame into a buffer of
`10 + plainText.byteLength` bytes (the hard-coded 10 from line 177 of the
source), copying the prefix and the plaintext into it.  A failed decryption
is caught and logged and nothing is enqueued. -/
def decodeFunction (st : E2EEState) (chunk : Chunk) : DecodeOutcome :=
  match resolveKeyAt st chunk.data with
  | none => { enqueued := some chunk, logged := false, threw := false }
  | some key =>
    let chunkType := inferredFrameType chunk.data
    let len := chunk.data.length
    if len < unencryptedBytes chunkType + 13 then
      { enqueued := none, logged := false, threw := true }
    else
      let iv := (chunk.data.drop (len - 13)).take 12
      let cipherText := (chunk.data.drop (unencryptedBytes chunkType)).take
        (len - (unencryptedBytes chunkType + 13))
      match aeadDecrypt key iv cipherText with
      | some plainText =>
        let newData := chunk.data.take (unencryptedBytes chunkType) ++
          plainText ++ List.replicate (10 - unencryptedBytes chunkType) 0
        { enqueued := some { chunk with data := newData }, logged := false,
          threw := false }
      | none => { enqueued := none, logged := true, threw := false }

/-- Modelled from the spec: the key-derivation collaborator
`derive(secretValue, salt) -> SymmetricKey` whose internals the spec leaves
out of scope but requires to be deterministic; the source's `_deriveKey` is
a stub.  Modelled as an injective pairing of secret and salt. -/
def deriveKey (salt value : Nat) : Nat := value * 65536 + salt % 65536

/-- Modelled from the spec: `setKey` in the source derives the key and then
leaves installation as `// TODO.`; the spec completes it: advance
`currentIndex` by one modulo `N` and install the derived key at
`slot[currentIndex mod N]`, overwriting the previous occupant. -/
def setKeySpec (st : E2EEState) (value : Nat) : E2EEState :=
  let key := deriveKey st.salt value
  let newIndex : Int := (st.currentKeyIndex + 1).emod (keyRingSize : Int)
  { st with currentKeyIndex := newIndex
            cryptoKeyRing := st.cryptoKeyRing.set newIndex.toNat (some key) }

/-- Send count the encoder will use for a chunk of the given ssrc: the
stored count, or the fresh random seed on first use. -/
def sendCountOf (st : E2EEState) (rand ssrc : Nat) : Nat :=
  (st.sendCounts ssrc).getD rand

/-- The 12-byte IV the encoder builds for a chunk. -/
def encodeIV (st : E2EEState) (rand : Nat) (c : Chunk) : List Nat :=
  be32 c.synchronizationSource ++ be32 c.timestamp ++
    be32 (sendCountOf st rand c.synchronizationSource % 65535)

/-- Payload the encoder assembles when a key is active and the payload is at
least as long as the unencrypted prefix. -/
def encodedData (k : Nat) (st : E2EEState) (rand : Nat) (c : Chunk) :
    List Nat :=
  c.data.take (unencryptedBytes c.type) ++
    aeadEncrypt k (encodeIV st rand c)
      (c.data.drop (unencryptedBytes c.type)) ++ encodeIV st rand c ++ [0]

/-- The 12 nonce bytes of a wire-layout payload: the bytes immediately
preceding the final key-index byte. -/
def nonceOf (data : List Nat) : List Nat :=
  (data.drop (data.length - 13)).take 12

/-- Fold of `_encodeFunction` over a list of chunks, collecting what each
invocation enqueued and threading the context state. -/
def encodeAll (st : E2EEState) (rand : Nat) :
    List Chunk → List (Option Chunk) × E2EEState
  | [] => ([], st)
  | c :: cs =>
    let o := encodeFunction st rand c
    let rest := encodeAll o.state rand cs
    (o.enqueued :: rest.1, rest.2)

/-- Ciphertext slice the decoder cuts out of a wire-layout payload. -/
def decodeCipherSlice (c : Chunk) : List Nat :=
  (c.data.drop (unencryptedBytes (inferredFrameType c.data))).take
    (c.data.length - (unencryptedBytes (inferredFrameType c.data) + 13))

/-- IV slice the decoder cuts out of a wire-layout payload. -/
def decodeIVSlice (c : Chunk) : List Nat :=
  (c.data.drop (c.data.length - 13)).take 12

/-- Payload the decoder rebuilds after a successful decryption: prefix bytes,
plaintext, and the zero padding left by the hard-coded `10 + byteLength`
allocation. -/
def decodedData (c : Chunk) (pt : List Nat) : List Nat :=
  c.data.take (unencryptedBytes (inferredFrameType c.data)) ++ pt ++
    List.replicate (10 - unencryptedBytes (inferredFrameType c.data)) 0

/-- Concrete context for the round-trip failing input of claim C1: key 5
installed at slot 0, current index 0, send count for ssrc 42 already
seeded. -/
def stC1 : E2EEState :=
  { salt := 0
    cryptoKeyRing := (List.replicate 8 (none : Option Nat)).set 0 (some 5)
    currentKeyIndex := 0
    sendCounts := fun s => if s = 42 then some 7 else none }

/-- Concrete delta frame with a 5-byte payload for claim C1. -/
def cC1 : Chunk := ⟨[1, 2, 3, 4, 5], FrameType.delta, 42, 1000⟩

/-- Concrete context for claim C2: key 7 installed at slot 1, current index
1. -/
def stC2 : E2EEState :=
  { salt := 0
    cryptoKeyRing := (List.replicate 8 (none : Option Nat)).set 1 (some 7)
    currentKeyIndex := 1
    sendCounts := fun s => if s = 42 then some 3 else none }

/-- Concrete delta frame for claim C2. -/
def cC2 : Chunk := ⟨[1, 2, 3, 4], FrameType.delta, 42, 99⟩

/-- Concrete context for claim C4: counter for ssrc 42 stands at 0xFFFF. -/
def stC4 : E2EEState :=
  { salt := 0
    cryptoKeyRing := (List.replicate 8 (none : Option Nat)).set 0 (some 11)
    currentKeyIndex := 0
    sendCounts := fun s => if s = 42 then some 65535 else none }

/-- Concrete delta frame for claim C4. -/
def cC4 : Chunk := ⟨[1, 2, 3, 4], FrameType.delta, 42, 7⟩

/-- Concrete context for the C4 witness: counter for ssrc 42 stands at 6. -/
def stC4w : E2EEState :=
  { salt := 0
    cryptoKeyRing := (List.replicate 8 (none : Option Nat)).set 0 (some 11)
    currentKeyIndex := 0
    sendCounts := fun s => if s = 42 then some 6 else none }

/-- Concrete delta frame for the C4 witness. -/
def cC4w : Chunk := ⟨[9, 8, 7, 6], FrameType.delta, 42, 7⟩

/-- Concrete frame for the C5 witness. -/
def cC5w : Chunk := ⟨[1, 2, 3], FrameType.delta, 7, 8⟩

/-- Concrete context for the C6 counterexample: key 9 installed at slot 0,
so the short frame's trailing 0 byte resolves a key. -/
def stC6 : E2EEState :=
  { salt := 0
    cryptoKeyRing := (List.replicate 8 (none : Option Nat)).set 0 (some 9)
    currentKeyIndex := 0
    sendCounts := fun _ => none }

/-- Concrete 2-byte frame for claim C6: shorter than any wire layout. -/
def cC6 : Chunk := ⟨[1, 0], FrameType.delta, 42, 0⟩

/-- Concrete 2-byte frame for the C6 witness, fed to an empty-ring context. -/
def cC6w : Chunk := ⟨[1, 0], FrameType.delta, 42, 0⟩

/-- Concrete context for the C7 counterexample: key 3 installed at slot 0. -/
def stC7 : E2EEState :=
  { salt := 0
    cryptoKeyRing := (List.replicate 8 (none : Option Nat)).set 0 (some 3)
    currentKeyIndex := 0
    sendCounts := fun _ => none }

/-- Concrete key frame with a 2-byte payload for claim C7: shorter than the
10-byte key-frame prefix. -/
def cC7 : Chunk := ⟨[2, 4], FrameType.key, 42, 0⟩

/-- Concrete context for the C8 witness. -/
def stC8w : E2EEState :=
  { salt := 0
    cryptoKeyRing := (List.replicate 8 (none : Option Nat)).set 0 (some 4)
    currentKeyIndex := 0
    sendCounts := fun _ => none }

/-- Concrete delta frame for the C8 witness. -/
def cC8w : Chunk := ⟨[5, 6, 7, 8, 9], FrameType.delta, 13, 21⟩

/-- Concrete context for the C9 witness. -/
def stC9w : E2EEState :=
  { salt := 0
    cryptoKeyRing := (List.replicate 8 (none : Option Nat)).set 0 (some 1)
    currentKeyIndex := 0
    sendCounts := fun s => if s = 42 then some 0 else none }

/-- Concrete first frame for the C9 witness. -/
def cC9a : Chunk := ⟨[1, 2, 3], FrameType.delta, 42, 50⟩

/-- Concrete second frame for the C9 witness. -/
def cC9b : Chunk := ⟨[1, 2, 3], FrameType.delta, 42, 51⟩

/-- Concrete frame for the C10 witness. -/
def cC10w : Chunk := ⟨[1, 2, 3, 4], FrameType.delta, 42, 9⟩

/-- Concrete delta frame used in the C3 ring-eviction scenario. -/
def c3Frame : Chunk := ⟨[1, 2, 3, 4, 5], FrameType.delta, 42, 1000⟩

/-- Context after the first `setKey` call of the C3 scenario. -/
def c3St1 (s1 : Nat) : E2EEState := setKeySpec (initialState 0) s1

/-- Context after all nine `setKey` calls of the C3 scenario. -/
def c3St9 (s1 s2 s3 s4 s5 s6 s7 s8 s9 : Nat) : E2EEState :=
  List.foldl setKeySpec (initialState 0) [s1, s2, s3, s4, s5, s6, s7, s8, s9]

/-- The IV the encoder builds for `c3Frame` in a fresh-counter context with
random seed 5. -/
def c3IV : List Nat := be32 42 ++ be32 1000 ++ be32 (5 % 65535)

/-- Wire frame the encoder produces for `c3Frame` under the given key in the
C3 scenario. -/
def c3Encoded (k : Nat) : Chunk :=
  { data := [1, 2, 3] ++ aeadEncrypt k c3IV [4, 5] ++ c3IV ++ [0]
    type := FrameType.delta
    synchronizationSource := 42
    timestamp := 1000 }

theorem natToBytesBE_length (n v : Nat) : (natToBytesBE n v).length = n := by
  induction n generalizing v with
  | zero => rfl
  | succ n ih => simp [natToBytesBE, ih]

theorem foldl_natToBytesBE (n v a : Nat) :
    (natToBytesBE n v).foldl (fun x b => x * 256 + b) a =
      a * 256 ^ n + v % 256 ^ n := by
  induction n generalizing v a with
  | zero => simp [natToBytesBE, Nat.mod_one]
  | succ n ih =>
    rw [natToBytesBE]
    rw [List.foldl_cons]
    rw [ih]
    have h256 : (256 : Nat) ^ (n + 1) = 256 ^ n * 256 := by ring
    have hmod : v % 256 ^ (n + 1) = v % 256 ^ n + 256 ^ n * (v / 256 ^ n % 256) := by
      rw [h256, Nat.mod_mul]
    rw [hmod]
    ring

theorem bytesToNatBE_natToBytesBE (n v : Nat) :
    bytesToNatBE (natToBytesBE n v) = v % 256 ^ n := by
  unfold bytesToNatBE
  rw [foldl_natToBytesBE]
  simp

theorem natToBytesBE_inj {n v w : Nat} (hv : v < 256 ^ n) (hw : w < 256 ^ n)
    (h : natToBytesBE n v = natToBytesBE n w) : v = w := by
  have := congrArg bytesToNatBE h
  rwa [bytesToNatBE_natToBytesBE, bytesToNatBE_natToBytesBE,
    Nat.mod_eq_of_lt hv, Nat.mod_eq_of_lt hw] at this

theorem add_mod_ne {a b n : Nat} (m : Nat) (ha : a < n) (hb : b < n)
    (hne : a ≠ b) : (a + m) % n ≠ (b + m) % n := by
  intro h
  have h2 : a ≡ b [MOD n] := Nat.ModEq.add_right_cancel' m h
  apply hne
  rw [← Nat.mod_eq_of_lt ha, ← Nat.mod_eq_of_lt hb]
  exact h2

theorem aeadTag_lt (key : Nat) (iv pt : List Nat) : aeadTag key iv pt < TWO128 :=
  Nat.mod_lt _ (by decide)

theorem aeadTag_ne_of_key_ne {k k' : Nat} (iv pt : List Nat)
    (hk : k < TWO128) (hk' : k' < TWO128) (hne : k ≠ k') :
    aeadTag k iv pt ≠ aeadTag k' iv pt := by
  have h := add_mod_ne (n := TWO128) (31 * listMix iv + 37 * listMix pt) hk hk' hne
  unfold aeadTag
  rwa [← Nat.add_assoc, ← Nat.add_assoc] at h

theorem aeadDecrypt_encrypt (k : Nat) (iv pt : List Nat) :
    aeadDecrypt k iv (aeadEncrypt k iv pt) = some pt := by
  unfold aeadDecrypt aeadEncrypt
  have hlen : (pt ++ natToBytesBE 16 (aeadTag k iv pt)).length = pt.length + 16 := by
    simp [natToBytesBE_length]
  rw [hlen]
  rw [if_neg (by omega)]
  have hsub : pt.length + 16 - 16 = pt.length := by omega
  rw [hsub]
  rw [List.take_left, List.drop_left]
  rw [if_pos rfl]

theorem aeadDecrypt_encrypt_ne {k k' : Nat} (iv pt : List Nat)
    (hne : aeadTag k' iv pt ≠ aeadTag k iv pt) :
    aeadDecrypt k' iv (aeadEncrypt k iv pt) = none := by
  unfold aeadDecrypt aeadEncrypt
  have hlen : (pt ++ natToBytesBE 16 (aeadTag k iv pt)).length = pt.length + 16 := by
    simp [natToBytesBE_length]
  rw [hlen]
  rw [if_neg (by omega)]
  have hsub : pt.length + 16 - 16 = pt.length := by omega
  rw [hsub]
  rw [List.take_left, List.drop_left]
  rw [if_neg ?hne2]
  case hne2 =>
    intro h
    exact hne (natToBytesBE_inj
      (lt_of_lt_of_le (aeadTag_lt _ _ _) (by norm_num [TWO128]))
      (lt_of_lt_of_le (aeadTag_lt _ _ _) (by norm_num [TWO128])) h)

theorem nonceOf_append (a iv : List Nat) (h : iv.length = 12) :
    nonceOf (a ++ (iv ++ [0])) = iv := by
  unfold nonceOf
  have h1 : (a ++ (iv ++ [0])).length = a.length + 13 := by simp [h]
  rw [h1]
  have h2 : a.length + 13 - 13 = a.length := by omega
  rw [h2, List.drop_left]
  exact List.take_left' h

theorem encodeIV_length (st : E2EEState) (rand : Nat) (c : Chunk) :
    (encodeIV st rand c).length = 12 := by
  simp [encodeIV, be32, natToBytesBE_length]

theorem encodeIV_drop8 (st : E2EEState) (rand : Nat) (c : Chunk) :
    (encodeIV st rand c).drop 8 =
      be32 (sendCountOf st rand c.synchronizationSource % 65535) := by
  unfold encodeIV
  exact List.drop_left' (by simp [be32, natToBytesBE_length])

theorem be32_small {v : Nat} (h : v < 2 ^ 32) : be32 v = natToBytesBE 4 v := by
  unfold be32
  rw [Nat.mod_eq_of_lt h]

theorem nonceOf_encodedData (k : Nat) (st : E2EEState) (rand : Nat) (c : Chunk) :
    nonceOf (encodedData k st rand c) = encodeIV st rand c := by
  unfold encodedData
  rw [List.append_assoc]
  exact nonceOf_append _ _ (encodeIV_length st rand c)

theorem encode_no_key (st : E2EEState) (rand : Nat) (c : Chunk)
    (h : activeKeyLookup st = none) :
    encodeFunction st rand c =
      { enqueued := none, state := st, logged := true, threw := false } := by
  unfold encodeFunction
  rw [h]

theorem encode_enqueued_some (st : E2EEState) (rand : Nat) (c : Chunk) (k : Nat)
    (hk : activeKeyLookup st = some k)
    (hlen : unencryptedBytes c.type ≤ c.data.length) :
    (encodeFunction st rand c).enqueued =
      some { c with data := encodedData k st rand c } := by
  unfold encodeFunction
  rw [hk]
  dsimp only []
  cases hc : st.sendCounts c.synchronizationSource with
  | none =>
    dsimp only []
    rw [if_pos hlen]
    simp [updateCounts, encodedData, encodeIV, sendCountOf, hc]
  | some n =>
    dsimp only []
    rw [if_pos hlen]
    simp [updateCounts, encodedData, encodeIV, sendCountOf, hc]

theorem encode_threw_enqueued (st : E2EEState) (rand : Nat) (c : Chunk) (k : Nat)
    (hk : activeKeyLookup st = some k)
    (hlen : ¬ unencryptedBytes c.type ≤ c.data.length) :
    (encodeFunction st rand c).enqueued = none := by
  unfold encodeFunction
  rw [hk]
  dsimp only []
  cases hc : st.sendCounts c.synchronizationSource with
  | none =>
    dsimp only []
    rw [if_neg hlen]
  | some n =>
    dsimp only []
    rw [if_neg hlen]

theorem encode_counts_self (st : E2EEState) (rand : Nat) (c : Chunk) (k : Nat)
    (hk : activeKeyLookup st = some k) :
    (encodeFunction st rand c).state.sendCounts c.synchronizationSource =
      some (sendCountOf st rand c.synchronizationSource + 1) := by
  unfold encodeFunction
  rw [hk]
  dsimp only []
  cases hc : st.sendCounts c.synchronizationSource with
  | none =>
    dsimp only []
    split <;> simp [updateCounts, sendCountOf, hc]
  | some n =>
    dsimp only []
    split <;> simp [updateCounts, sendCountOf, hc]

theorem encode_counts_other (st : E2EEState) (rand : Nat) (c : Chunk) (s : Nat)
    (hs : s ≠ c.synchronizationSource) :
    (encodeFunction st rand c).state.sendCounts s = st.sendCounts s := by
  unfold encodeFunction
  cases hk : activeKeyLookup st with
  | none => rfl
  | some k =>
    dsimp only []
    cases hc : st.sendCounts c.synchronizationSource with
    | none =>
      dsimp only []
      split <;> simp [updateCounts, hs]
    | some n =>
      dsimp only []
      split <;> simp [updateCounts, hs]

theorem encode_ring_const (st : E2EEState) (rand : Nat) (c : Chunk) :
    (encodeFunction st rand c).state.cryptoKeyRing = st.cryptoKeyRing := by
  unfold encodeFunction
  cases hk : activeKeyLookup st with
  | none => rfl
  | some k =>
    dsimp only []
    cases hc : st.sendCounts c.synchronizationSource with
    | none =>
      dsimp only []
      split <;> rfl
    | some n =>
      dsimp only []
      split <;> rfl

theorem encode_index_const (st : E2EEState) (rand : Nat) (c : Chunk) :
    (encodeFunction st rand c).state.currentKeyIndex = st.currentKeyIndex := by
  unfold encodeFunction
  cases hk : activeKeyLookup st with
  | none => rfl
  | some k =>
    dsimp only []
    cases hc : st.sendCounts c.synchronizationSource with
    | none =>
      dsimp only []
      split <;> rfl
    | some n =>
      dsimp only []
      split <;> rfl

theorem encode_threw_iff (st : E2EEState) (rand : Nat) (c : Chunk) :
    (encodeFunction st rand c).threw = true ↔
      (activeKeyLookup st).isSome = true ∧
        c.data.length < unencryptedBytes c.type := by
  unfold encodeFunction
  cases hk : activeKeyLookup st with
  | none => simp
  | some k =>
    dsimp only []
    cases hc : st.sendCounts c.synchronizationSource with
    | none =>
      dsimp only []
      split
      case isTrue h => simp [Nat.not_lt.mpr h]
      case isFalse h => simp [Nat.not_le.mp h]
    | some n =>
      dsimp only []
      split
      case isTrue h => simp [Nat.not_lt.mpr h]
      case isFalse h => simp [Nat.not_le.mp h]

theorem decode_passthrough (st : E2EEState) (c : Chunk)
    (h : resolveKeyAt st c.data = none) :
    decodeFunction st c =
      { enqueued := some c, logged := false, threw := false } := by
  unfold decodeFunction
  rw [h]

theorem decode_short (st : E2EEState) (c : Chunk) (k : Nat)
    (hk : resolveKeyAt st c.data = some k)
    (h : c.data.length < unencryptedBytes (inferredFrameType c.data) + 13) :
    decodeFunction st c =
      { enqueued := none, logged := false, threw := true } := by
  unfold decodeFunction
  rw [hk]
  dsimp only []
  rw [if_pos h]

theorem decode_auth_fail (st : E2EEState) (c : Chunk) (k : Nat)
    (hk : resolveKeyAt st c.data = some k)
    (h : ¬ c.data.length < unencryptedBytes (inferredFrameType c.data) + 13)
    (hfail : aeadDecrypt k (decodeIVSlice c) (decodeCipherSlice c) = none) :
    decodeFunction st c =
      { enqueued := none, logged := true, threw := false } := by
  unfold decodeFunction
  rw [hk]
  dsimp only []
  rw [if_neg h]
  rw [show ((c.data.drop (c.data.length - 13)).take 12) = decodeIVSlice c from rfl]
  rw [show ((c.data.drop (unencryptedBytes (inferredFrameType c.data))).take
    (c.data.length - (unencryptedBytes (inferredFrameType c.data) + 13))) =
      decodeCipherSlice c from rfl]
  rw [hfail]

theorem decode_auth_ok (st : E2EEState) (c : Chunk) (k : Nat) (pt : List Nat)
    (hk : resolveKeyAt st c.data = some k)
    (h : ¬ c.data.length < unencryptedBytes (inferredFrameType c.data) + 13)
    (hok : aeadDecrypt k (decodeIVSlice c) (decodeCipherSlice c) = some pt) :
    decodeFunction st c =
      { enqueued := some { c with data := decodedData c pt },
        logged := false, threw := false } := by
  unfold decodeFunction
  rw [hk]
  dsimp only []
  rw [if_neg h]
  rw [show ((c.data.drop (c.data.length - 13)).take 12) = decodeIVSlice c from rfl]
  rw [show ((c.data.drop (unencryptedBytes (inferredFrameType c.data))).take
    (c.data.length - (unencryptedBytes (inferredFrameType c.data) + 13))) =
      decodeCipherSlice c from rfl]
  rw [hok]
  rfl

theorem decode_threw_iff (st : E2EEState) (c : Chunk) :
    (decodeFunction st c).threw = true ↔
      (resolveKeyAt st c.data).isSome = true ∧
        c.data.length < unencryptedBytes (inferredFrameType c.data) + 13 := by
  cases hk : resolveKeyAt st c.data with
  | none => rw [decode_passthrough st c hk]; simp
  | some k =>
    by_cases h : c.data.length < unencryptedBytes (inferredFrameType c.data) + 13
    · rw [decode_short st c k hk h]
      simp [h]
    · cases hd : aeadDecrypt k (decodeIVSlice c) (decodeCipherSlice c) with
      | none =>
        rw [decode_auth_fail st c k hk h hd]
        simp [h]
      | some pt =>
        rw [decode_auth_ok st c k pt hk h hd]
        simp [h]

/-- Claim C1: the spec says decode(encode(f, k), k) == f byte-for-byte for
every plaintext frame of type key or delta and every installed key.  The
code violates this: at the concrete delta frame `cC1` (payload
`[1,2,3,4,5]`, key 5 installed at slot 0), the round trip yields a 12-byte
payload with 7 trailing zero bytes, because the decoder allocates
`10 + plainText.byteLength` bytes regardless of the frame type. -/
theorem C1_roundtrip_fails_on_delta :
    ∃ c1 c2, (encodeFunction stC1 0 cC1).enqueued = some c1
      ∧ (decodeFunction stC1 c1).enqueued = some c2
      ∧ c2.data = [1, 2, 3, 4, 5, 0, 0, 0, 0, 0, 0, 0]
      ∧ c2.data ≠ cC1.data := by
  refine ⟨_, _, rfl, rfl, by decide, by decide⟩

/-- Claim C2: the spec says the final byte of the encoder output equals
`keyIndex mod 8`.  The code violates this: with `currentKeyIndex = 1` and a
key at slot 1, the output's final byte is 0, not 1, because the source
indexes the output array with a string-concatenated property name instead
of a numeric offset, leaving the zero-initialised byte unwritten.  The rest
of the claimed layout (total length P + C + 13) does hold. -/
theorem C2_key_index_byte_never_written :
    Int.tmod stC2.currentKeyIndex (stC2.cryptoKeyRing.length : Int) = 1
    ∧ ∃ c', (encodeFunction stC2 0 cC2).enqueued = some c'
        ∧ c'.data.getLast? = some 0
        ∧ c'.data.length = unencryptedBytes cC2.type +
            (cC2.data.length - unencryptedBytes cC2.type + 16) + 13
        ∧ (0 : Nat) ≠ 1 % 8 := by
  refine ⟨by decide, _, rfl, by decide, by decide, by decide⟩

/-- Claim C5: whenever no key is installed at the active ring index, the
encoder enqueues nothing downstream (the frame is never forwarded
unencrypted), the failure is logged, and no exception escapes. -/
theorem C5_no_active_key_drops (st : E2EEState) (rand : Nat) (c : Chunk)
    (h : activeKeyLookup st = none) :
    (encodeFunction st rand c).enqueued = none
    ∧ (encodeFunction st rand c).logged = true
    ∧ (encodeFunction st rand c).threw = false := by
  rw [encode_no_key st rand c h]
  exact ⟨rfl, rfl, rfl⟩

/-- Witness for C5 at the freshly constructed context, whose key ring is
empty and whose current index is -1. -/
theorem C5_no_active_key_drops_witness :
    (encodeFunction (initialState 0) 0 cC5w).enqueued = none
    ∧ (encodeFunction (initialState 0) 0 cC5w).logged = true
    ∧ (encodeFunction (initialState 0) 0 cC5w).threw = false :=
  C5_no_active_key_drops (initialState 0) 0 cC5w (by decide)

/-- Claim C6 counterexample: the spec says every too-short frame is passed
through unmodified by the decoder.  The code has no length check: at the
concrete 2-byte frame `cC6` whose last byte indexes an occupied key slot,
the decoder throws a RangeError (negative typed-array view bounds) and
enqueues nothing. -/
theorem C6_short_frame_not_passed_through :
    cC6.data.length < unencryptedBytes (inferredFrameType cC6.data) + 13
    ∧ (decodeFunction stC6 cC6).enqueued ≠ some cC6
    ∧ (decodeFunction stC6 cC6).threw = true := by
  exact ⟨by decide, by decide, by decide⟩

/-- Claim C6 as amended: a too-short frame is passed through unmodified
exactly when the key-ring slot indexed by its final byte is empty (or the
payload is empty); when that slot holds a key the decoder instead throws and
enqueues nothing. -/
theorem C6_short_frame_passthrough_iff_unresolved_key (st : E2EEState)
    (c : Chunk)
    (hshort : c.data.length < unencryptedBytes (inferredFrameType c.data) + 13) :
    (resolveKeyAt st c.data = none →
      decodeFunction st c =
        { enqueued := some c, logged := false, threw := false })
    ∧ (∀ k, resolveKeyAt st c.data = some k →
      decodeFunction st c =
        { enqueued := none, logged := false, threw := true }) :=
  ⟨fun h => decode_passthrough st c h,
   fun k hk => decode_short st c k hk hshort⟩

/-- Witness for the amended C6: a 2-byte frame fed to the fresh empty-ring
context passes through unmodified. -/
theorem C6_short_frame_passthrough_witness :
    decodeFunction (initialState 0) cC6w =
      { enqueued := some cC6w, logged := false, threw := false } :=
  (C6_short_frame_passthrough_iff_unresolved_key (initialState 0) cC6w
    (by decide)).1 (by decide)

/-- Claim C7 counterexample: the spec says the transforms never raise an
uncaught error on any input buffer.  The code violates this: at the
concrete key-type frame `cC7` with a 2-byte payload (shorter than the
10-byte key-frame prefix) and an active key, the encoder's
`new Uint8Array(chunk.data, 10)` throws a RangeError that nothing
catches. -/
theorem C7_encoder_throws_uncaught :
    (encodeFunction stC7 0 cC7).threw = true
    ∧ (encodeFunction stC7 0 cC7).enqueued = none := by
  exact ⟨by decide, by decide⟩

/-- Claim C7 as amended: the transforms raise an uncaught error exactly on
the too-short payloads where typed-array view construction fails — the
encoder throws iff a key is active and the payload is shorter than the
type's unencrypted prefix, and the decoder throws iff the slot indexed by
the last byte holds a key and the payload is shorter than the inferred
prefix plus 13; AEAD failures are caught and logged and everything else is
total. -/
theorem C7_throw_characterization (st : E2EEState) (rand : Nat) (c : Chunk) :
    ((encodeFunction st rand c).threw = true ↔
      (activeKeyLookup st).isSome = true ∧
        c.data.length < unencryptedBytes c.type)
    ∧ ((decodeFunction st c).threw = true ↔
      (resolveKeyAt st c.data).isSome = true ∧
        c.data.length < unencryptedBytes (inferredFrameType c.data) + 13) :=
  ⟨encode_threw_iff st rand c, decode_threw_iff st c⟩

/-- Claim C8: the unencrypted-prefix table maps key frames to 10 bytes and
delta frames to 3, and whenever the encoder enqueues an output frame, its
first `unencryptedBytes type` bytes equal those of the input frame. -/
theorem C8_clear_prefix_bytes_preserved (st : E2EEState) (rand : Nat)
    (c : Chunk) (c' : Chunk)
    (h : (encodeFunction st rand c).enqueued = some c') :
    unencryptedBytes FrameType.key = 10
    ∧ unencryptedBytes FrameType.delta = 3
    ∧ c'.data.take (unencryptedBytes c.type) =
        c.data.take (unencryptedBytes c.type) := by
  refine ⟨rfl, rfl, ?_⟩
  cases hk : activeKeyLookup st with
  | none =>
    rw [encode_no_key st rand c hk] at h
    cases h
  | some k =>
    by_cases hlen : unencryptedBytes c.type ≤ c.data.length
    · rw [encode_enqueued_some st rand c k hk hlen] at h
      have hc' : c' = { c with data := encodedData k st rand c } :=
        (Option.some.inj h).symm
      subst hc'
      show (encodedData k st rand c).take (unencryptedBytes c.type) = _
      unfold encodedData
      rw [List.append_assoc, List.append_assoc]
      exact List.take_left' (by rw [List.length_take]; omega)
    · rw [encode_threw_enqueued st rand c k hk hlen] at h
      cases h

/-- Witness for C8 at a concrete delta frame and concrete context. -/
theorem C8_clear_prefix_bytes_preserved_witness :
    ∃ c', (encodeFunction stC8w 0 cC8w).enqueued = some c'
      ∧ (unencryptedBytes FrameType.key = 10
        ∧ unencryptedBytes FrameType.delta = 3
        ∧ c'.data.take (unencryptedBytes cC8w.type) =
            cC8w.data.take (unencryptedBytes cC8w.type)) :=
  ⟨_, rfl, C8_clear_prefix_bytes_preserved stC8w 0 cC8w _ rfl⟩

/-- Claim C10: one encoder invocation leaves the key ring and the current
key index unchanged, touches no send-count entry other than the frame's own
ssrc, and either leaves that entry unchanged (no-key path) or sets it to
the consumed count plus one (seeding it with the random draw on first
use). -/
theorem C10_encoder_frame_effect (st : E2EEState) (rand : Nat) (c : Chunk) :
    (encodeFunction st rand c).state.cryptoKeyRing = st.cryptoKeyRing
    ∧ (encodeFunction st rand c).state.currentKeyIndex = st.currentKeyIndex
    ∧ (∀ s, s ≠ c.synchronizationSource →
        (encodeFunction st rand c).state.sendCounts s = st.sendCounts s)
    ∧ ((encodeFunction st rand c).state.sendCounts c.synchronizationSource
          = st.sendCounts c.synchronizationSource
        ∨ (encodeFunction st rand c).state.sendCounts c.synchronizationSource
          = some (sendCountOf st rand c.synchronizationSource + 1)) := by
  refine ⟨encode_ring_const st rand c, encode_index_const st rand c,
    fun s hs => encode_counts_other st rand c s hs, ?_⟩
  cases hk : activeKeyLookup st with
  | none =>
    left
    rw [encode_no_key st rand c hk]
  | some k =>
    right
    exact encode_counts_self st rand c k hk

/-- Witness for C10: an encoder invocation on the fresh context leaves the
send count of an unrelated ssrc unchanged. -/
theorem C10_encoder_frame_effect_witness :
    (encodeFunction (initialState 0) 7 cC10w).state.sendCounts 5 =
      (initialState 0).sendCounts 5 :=
  (C10_encoder_frame_effect (initialState 0) 7 cC10w).2.2.1 5 (by decide)

/-- Claim C4 counterexample: the spec says nonce bytes [8..12) hold the
big-endian counter reduced modulo 0x10000.  The code reduces modulo 0xFFFF
(`sendCount % 0xFFFF`): with the counter at 0xFFFF = 65535, the emitted
bytes are big-endian 0, not big-endian 65535 as the claim requires. -/
theorem C4_counter_not_reduced_mod_10000 :
    ∃ c', (encodeFunction stC4 0 cC4).enqueued = some c'
      ∧ (nonceOf c'.data).drop 8 = natToBytesBE 4 (65535 % 65535)
      ∧ (nonceOf c'.data).drop 8 ≠ natToBytesBE 4 (65535 % 65536) := by
  refine ⟨_, rfl, by decide, by decide⟩

/-- Claim C4 as amended: for every frame the encoder processes, bytes
[8..12) of the 12-byte nonce hold the big-endian value of the frame's
per-source counter reduced modulo 0xFFFF (65535, not 0x10000), after which
the table's counter for that media source is incremented by one. -/
theorem C4_nonce_counter_bytes (st : E2EEState) (rand : Nat) (c : Chunk)
    (k : Nat) (hk : activeKeyLookup st = some k)
    (hlen : unencryptedBytes c.type ≤ c.data.length) :
    ∃ c', (encodeFunction st rand c).enqueued = some c'
      ∧ (nonceOf c'.data).drop 8 =
          natToBytesBE 4 (sendCountOf st rand c.synchronizationSource % 65535)
      ∧ (encodeFunction st rand c).state.sendCounts c.synchronizationSource =
          some (sendCountOf st rand c.synchronizationSource + 1) := by
  refine ⟨_, encode_enqueued_some st rand c k hk hlen, ?_,
    encode_counts_self st rand c k hk⟩
  show (nonceOf (encodedData k st rand c)).drop 8 = _
  rw [nonceOf_encodedData, encodeIV_drop8]
  exact be32_small (lt_trans (Nat.mod_lt _ (by decide)) (by decide))

/-- Witness for the amended C4 at a concrete context with counter 6. -/
theorem C4_nonce_counter_bytes_witness :
    ∃ c', (encodeFunction stC4w 3 cC4w).enqueued = some c'
      ∧ (nonceOf c'.data).drop 8 =
          natToBytesBE 4 (sendCountOf stC4w 3 cC4w.synchronizationSource % 65535)
      ∧ (encodeFunction stC4w 3 cC4w).state.sendCounts
            cC4w.synchronizationSource =
          some (sendCountOf stC4w 3 cC4w.synchronizationSource + 1) :=
  C4_nonce_counter_bytes stC4w 3 cC4w 11 (by decide) (by decide)

theorem encodeAll_nth (frames : List Chunk) (st : E2EEState)
    (rand ssrc k n0 : Nat)
    (hk : activeKeyLookup st = some k)
    (hc : st.sendCounts ssrc = some n0)
    (hs : ∀ f ∈ frames, f.synchronizationSource = ssrc)
    (hl : ∀ f ∈ frames, unencryptedBytes f.type ≤ f.data.length)
    (i : Nat) (hi : i < frames.length) :
    ∃ c', (encodeAll st rand frames).1.getD i none = some c'
      ∧ (nonceOf c'.data).drop 8 = natToBytesBE 4 ((n0 + i) % 65535) := by
  induction frames generalizing st n0 i with
  | nil => simp at hi
  | cons f fs ih =>
    have hfs : f.synchronizationSource = ssrc := hs f (by simp)
    have hfl : unencryptedBytes f.type ≤ f.data.length := hl f (by simp)
    have hcf : st.sendCounts f.synchronizationSource = some n0 := by
      rw [hfs]; exact hc
    have hcount : sendCountOf st rand f.synchronizationSource = n0 := by
      rw [sendCountOf, hcf]; rfl
    cases i with
    | zero =>
      refine ⟨{ f with data := encodedData k st rand f }, ?_, ?_⟩
      · show ((encodeFunction st rand f).enqueued ::
            (encodeAll (encodeFunction st rand f).state rand fs).1).getD 0 none
              = _
        rw [List.getD_cons_zero]
        exact encode_enqueued_some st rand f k hk hfl
      · show (nonceOf (encodedData k st rand f)).drop 8 = _
        rw [nonceOf_encodedData, encodeIV_drop8, hcount, Nat.add_zero]
        exact be32_small (lt_trans (Nat.mod_lt _ (by decide)) (by decide))
    | succ i =>
      have hk2 : activeKeyLookup (encodeFunction st rand f).state = some k := by
        unfold activeKeyLookup
        rw [encode_ring_const, encode_index_const]
        exact hk
      have hc2 : (encodeFunction st rand f).state.sendCounts ssrc =
          some (n0 + 1) := by
        have h := encode_counts_self st rand f k hk
        rw [hcount] at h
        rw [← hfs]
        exact h
      obtain ⟨c', h1, h2⟩ := ih (encodeFunction st rand f).state (n0 + 1)
        hk2 hc2 (fun g hg => hs g (List.mem_cons_of_mem _ hg))
        (fun g hg => hl g (List.mem_cons_of_mem _ hg)) i
        (by simpa using hi)
      refine ⟨c', ?_, ?_⟩
      · show ((encodeFunction st rand f).enqueued ::
            (encodeAll (encodeFunction st rand f).state rand fs).1).getD
              (i + 1) none = _
        rw [List.getD_cons_succ]
        exact h1
      · have harith : n0 + 1 + i = n0 + (i + 1) := by omega
        rw [harith] at h2
        exact h2

/-- Claim C9: with a fixed media source and a fixed active key, any run of
at most 10,000 consecutive frames through the encoder produces pairwise
distinct 12-byte nonces — the per-source counter advances by one each frame
and its reduction cycles with period 65535, which exceeds the run length. -/
theorem C9_nonce_uniqueness (st : E2EEState) (rand ssrc k n0 : Nat)
    (frames : List Chunk) (i j : Nat)
    (hk : activeKeyLookup st = some k)
    (hc : st.sendCounts ssrc = some n0)
    (hs : ∀ f ∈ frames, f.synchronizationSource = ssrc)
    (hl : ∀ f ∈ frames, unencryptedBytes f.type ≤ f.data.length)
    (hcount : frames.length ≤ 10000)
    (hi : i < frames.length) (hj : j < frames.length) (hij : i ≠ j) :
    ∃ ci cj, (encodeAll st rand frames).1.getD i none = some ci
      ∧ (encodeAll st rand frames).1.getD j none = some cj
      ∧ nonceOf ci.data ≠ nonceOf cj.data := by
  obtain ⟨ci, hgi, hni⟩ := encodeAll_nth frames st rand ssrc k n0 hk hc hs hl i hi
  obtain ⟨cj, hgj, hnj⟩ := encodeAll_nth frames st rand ssrc k n0 hk hc hs hl j hj
  refine ⟨ci, cj, hgi, hgj, ?_⟩
  intro heq
  have hdrop := congrArg (List.drop 8) heq
  rw [hni, hnj] at hdrop
  have h1 : (n0 + i) % 65535 < 256 ^ 4 :=
    lt_trans (Nat.mod_lt _ (by decide)) (by decide)
  have h2 : (n0 + j) % 65535 < 256 ^ 4 :=
    lt_trans (Nat.mod_lt _ (by decide)) (by decide)
  have := natToBytesBE_inj h1 h2 hdrop
  omega

/-- Witness for C9: two consecutive frames from ssrc 42 under the key at
slot 0 get distinct nonces. -/
theorem C9_nonce_uniqueness_witness :
    ∃ ci cj, (encodeAll stC9w 0 [cC9a, cC9b]).1.getD 0 none = some ci
      ∧ (encodeAll stC9w 0 [cC9a, cC9b]).1.getD 1 none = some cj
      ∧ nonceOf ci.data ≠ nonceOf cj.data :=
  C9_nonce_uniqueness stC9w 0 42 1 0 [cC9a, cC9b] 0 1 (by decide) (by decide)
    (by decide) (by decide) (by decide) (by decide) (by decide) (by decide)

theorem deriveKey_lt (v : Nat) (hv : v < 2 ^ 64) : deriveKey 0 v < TWO128 := by
  unfold deriveKey TWO128
  have h1 : v * 65536 < 2 ^ 64 * 65536 := mul_lt_mul_of_pos_right hv (by decide)
  have h2 : (2 : Nat) ^ 64 * 65536 = 2 ^ 80 := by norm_num
  have h3 : (2 : Nat) ^ 80 < 2 ^ 128 := by norm_num
  omega

theorem deriveKey_inj {v w : Nat} (h : deriveKey 0 v = deriveKey 0 w) :
    v = w := by
  unfold deriveKey at h
  simp only [Nat.zero_mod, Nat.add_zero] at h
  exact Nat.eq_of_mul_eq_mul_right (by decide) h

theorem c3Encoded_data_length (k : Nat) : (c3Encoded k).data.length = 34 := by
  simp [c3Encoded, aeadEncrypt, c3IV, be32, natToBytesBE_length]

theorem c3Encoded_inferred (k : Nat) :
    inferredFrameType (c3Encoded k).data = FrameType.delta := rfl

/-- Claim C3 (with `setKey` completed from the spec, since the source stubs
its installation logic): each `setKey` derives a key, advances the index by
one modulo 8 and installs at that slot; after the first call the derived
key of secret 1 sits at slot 0, after nine calls the ninth key has
overwritten it.  Consequently a frame encoded under the call-1 key is
dropped with a logged authentication failure when decoded against the
post-rotation ring, while a frame encoded under the call-9 key decodes
successfully. -/
theorem C3_ring_eviction (s1 s2 s3 s4 s5 s6 s7 s8 s9 : Nat)
    (h1 : s1 < 2 ^ 64) (h9 : s9 < 2 ^ 64) (hne : s1 ≠ s9) :
    (c3St1 s1).cryptoKeyRing.getD 0 none = some (deriveKey 0 s1)
    ∧ (c3St9 s1 s2 s3 s4 s5 s6 s7 s8 s9).cryptoKeyRing.getD 0 none =
        some (deriveKey 0 s9)
    ∧ (encodeFunction (c3St1 s1) 5 c3Frame).enqueued =
        some (c3Encoded (deriveKey 0 s1))
    ∧ decodeFunction (c3St9 s1 s2 s3 s4 s5 s6 s7 s8 s9)
        (c3Encoded (deriveKey 0 s1)) =
        { enqueued := none, logged := true, threw := false }
    ∧ (encodeFunction (c3St9 s1 s2 s3 s4 s5 s6 s7 s8 s9) 5 c3Frame).enqueued =
        some (c3Encoded (deriveKey 0 s9))
    ∧ ∃ d, (decodeFunction (c3St9 s1 s2 s3 s4 s5 s6 s7 s8 s9)
        (c3Encoded (deriveKey 0 s9))).enqueued = some d := by
  have hkne : deriveKey 0 s9 ≠ deriveKey 0 s1 := fun h => hne (deriveKey_inj h).symm
  refine ⟨rfl, rfl, rfl, ?_, rfl, ?_⟩
  · exact decode_auth_fail _ _ (deriveKey 0 s9) rfl
      (by rw [c3Encoded_data_length, c3Encoded_inferred]; decide)
      (aeadDecrypt_encrypt_ne c3IV [4, 5]
        (aeadTag_ne_of_key_ne c3IV [4, 5] (deriveKey_lt s9 h9)
          (deriveKey_lt s1 h1) hkne))
  · refine ⟨{ c3Encoded (deriveKey 0 s9) with
        data := decodedData (c3Encoded (deriveKey 0 s9)) [4, 5] }, ?_⟩
    rw [decode_auth_ok (c3St9 s1 s2 s3 s4 s5 s6 s7 s8 s9)
      (c3Encoded (deriveKey 0 s9)) (deriveKey 0 s9) [4, 5] rfl
      (by rw [c3Encoded_data_length, c3Encoded_inferred]; decide)
      (aeadDecrypt_encrypt (deriveKey 0 s9) c3IV [4, 5])]

/-- Witness for C3 at the concrete secrets 1 through 9: the frame encoded
under the first key no longer decodes after nine rotations. -/
theorem C3_ring_eviction_witness :
    decodeFunction (c3St9 1 2 3 4 5 6 7 8 9) (c3Encoded (deriveKey 0 1)) =
      { enqueued := none, logged := true, threw := false } :=
  (C3_ring_eviction 1 2 3 4 5 6 7 8 9 (by decide) (by decide)
    (by decide)).2.2.2.1
